import Mathlib

/-!
# Verification of the brotlic streaming adapter layer

This file embeds the adapter layer of the `brotlic` crate: the four streaming
adapters (`CompressorReader`, `CompressorWriter`, `DecompressorReader`,
`DecompressorWriter`), the parameter validators, and the one-shot helpers.

The native brotli codec engine is an external collaborator reached through FFI
(`BrotliEncoderCompressStream` and friends); it is not part of the repository's
Rust sources.  Following the specification, the engine is embedded as an
abstract interface (`EncModel` / `DecModel`) over which the adapter loops are
defined exactly as in `encode.rs` / `decode.rs`, plus one concrete
specification-faithful instance (`MEnc` / `MDec`) used to exercise end-to-end
round trips.  Bytes are modelled as natural numbers; the coded alphabet of the
model codec is likewise `Nat` (the wire format is out of scope of the spec).
-/

set_option maxHeartbeats 1000000

/-- `BrotliOperation` from `encode.rs`: caller intent for the next feed call. -/
inductive BrotliOperation where
  | process
  | flush
  | finish
deriving DecidableEq, Repr

/-- `DecoderInfo` from `decode.rs`: status reported by the decoder. -/
inductive DecoderInfo where
  | finished
  | needsMoreInput
  | needsMoreOutput
deriving DecidableEq, Repr

/-- `EncodeError` from `encode.rs` (a unit struct). -/
inductive EncodeError where
  | mk
deriving DecidableEq, Repr

/-- `DecodeError` from `decode.rs`: the closed set of decoder error kinds. -/
inductive DecodeError where
  | unknownError
  | formatExuberantNibble
  | formatReserved
  | formatExuberantMetaNibble
  | formatSimpleHuffmanAlphabet
  | formatSimpleHuffmanSame
  | formatClSpace
  | formatHuffmanSpace
  | formatContextMapRepeat
  | formatBlockLength1
  | formatBlockLength2
  | formatTransform
  | formatDictionary
  | formatWindowBits
  | formatPadding1
  | formatPadding2
  | formatDistance
  | compoundDictionary
  | dictionaryNotSet
  | invalidArguments
  | allocContextModes
  | allocTreeGroups
  | allocContextMap
  | allocRingBuffer1
  | allocRingBuffer2
  | allocBlockTypeTrees
  | unreachable
deriving DecidableEq, Repr

/-- `SetParameterError` from `lib.rs`. -/
inductive SetParameterError where
  | generic
  | invalidPostfix
  | invalidDirectDistanceCodes
  | invalidStreamOffset
  | invalidQuality
  | invalidWindowSize
  | invalidBlockSize
deriving DecidableEq, Repr

/-- `CompressionMode` from `lib.rs`. -/
inductive CompressionMode where
  | generic
  | text
  | font
deriving DecidableEq, Repr

/-- Constant from `brotlic-sys`. -/
def BROTLI_MIN_QUALITY : Nat := 0

/-- Constant from `brotlic-sys`. -/
def BROTLI_MAX_QUALITY : Nat := 11

/-- Constant from `brotlic-sys`. -/
def BROTLI_MIN_WINDOW_BITS : Nat := 10

/-- Constant from `brotlic-sys`. -/
def BROTLI_MAX_WINDOW_BITS : Nat := 24

/-- Constant from `brotlic-sys`. -/
def BROTLI_LARGE_MAX_WINDOW_BITS : Nat := 30

/-- Constant from `brotlic-sys`. -/
def BROTLI_MIN_INPUT_BLOCK_BITS : Nat := 16

/-- Constant from `brotlic-sys`. -/
def BROTLI_MAX_INPUT_BLOCK_BITS : Nat := 24

/-- `Quality` newtype from `lib.rs` (u8 payload modelled as `Nat`). -/
structure Quality where
  level : Nat
deriving DecidableEq, Repr

/-- `Quality::new` from `lib.rs`: accepts levels 0..=11. -/
def Quality.new (level : Nat) : Except SetParameterError Quality :=
  if BROTLI_MIN_QUALITY ≤ level ∧ level ≤ BROTLI_MAX_QUALITY then
    .ok ⟨level⟩
  else
    .error .invalidQuality

/-- `WindowSize` newtype from `lib.rs`. -/
structure WindowSize where
  bits : Nat
deriving DecidableEq, Repr

/-- `WindowSize::new` from `lib.rs`: accepts bits 10..=24. -/
def WindowSize.new (bits : Nat) : Except SetParameterError WindowSize :=
  if BROTLI_MIN_WINDOW_BITS ≤ bits ∧ bits ≤ BROTLI_MAX_WINDOW_BITS then
    .ok ⟨bits⟩
  else
    .error .invalidWindowSize

/-- `LargeWindowSize` newtype from `lib.rs`. -/
structure LargeWindowSize where
  bits : Nat
deriving DecidableEq, Repr

/-- `LargeWindowSize::new` from `lib.rs`: accepts bits 10..=30. -/
def LargeWindowSize.new (bits : Nat) : Except SetParameterError LargeWindowSize :=
  if BROTLI_MIN_WINDOW_BITS ≤ bits ∧ bits ≤ BROTLI_LARGE_MAX_WINDOW_BITS then
    .ok ⟨bits⟩
  else
    .error .invalidWindowSize

/-- `BlockSize` newtype from `lib.rs`. -/
structure BlockSize where
  bits : Nat
deriving DecidableEq, Repr

/-- `BlockSize::new` from `lib.rs`: accepts bits 16..=24. -/
def BlockSize.new (bits : Nat) : Except SetParameterError BlockSize :=
  if BROTLI_MIN_INPUT_BLOCK_BITS ≤ bits ∧ bits ≤ BROTLI_MAX_INPUT_BLOCK_BITS then
    .ok ⟨bits⟩
  else
    .error .invalidBlockSize

/-- `TryFrom<LargeWindowSize> for WindowSize` from `lib.rs`. -/
def WindowSize.tryFromLarge (l : LargeWindowSize) : Except SetParameterError WindowSize :=
  WindowSize.new l.bits

/-- `BrotliEncoderOptions` staged fields from `encode.rs`. -/
structure BrotliEncoderOptions where
  mode : Option CompressionMode := none
  quality : Option Quality := none
  windowSize : Option LargeWindowSize := none
  blockBits : Option BlockSize := none
  disableContextModeling : Option Bool := none
  sizeHint : Option Nat := none
  postfixBits : Option Nat := none
  directDistanceCodes : Option Nat := none
  streamOffset : Option Nat := none

/-- Modelled from the spec: `BrotliEncoderSetParameter` (engine FFI, not in
src/) accepts every value that has passed the builder's validation, so the
staging call itself is modelled as always succeeding. -/
def setParam (_value : Nat) : Except SetParameterError Unit :=
  .ok ()

/-- `BrotliEncoderOptions::configure` from `encode.rs`: applies each staged
parameter in source order, failing fast with the identifying error. -/
def BrotliEncoderOptions.configure (o : BrotliEncoderOptions) :
    Except SetParameterError Unit := do
  match o.mode with
  | some m => setParam (match m with | .generic => 0 | .text => 1 | .font => 2)
  | none => pure ()
  match o.quality with
  | some q => setParam q.level
  | none => pure ()
  match o.windowSize with
  | some w =>
    setParam w.bits
    let largeWindow : Bool :=
      match WindowSize.tryFromLarge w with
      | .error _ => true
      | .ok _ => false
    setParam (if largeWindow then 1 else 0)
  | none => pure ()
  match o.blockBits with
  | some b => setParam b.bits
  | none => pure ()
  match o.disableContextModeling with
  | some d => setParam (if d then 1 else 0)
  | none => pure ()
  match o.sizeHint with
  | some s => setParam s
  | none => pure ()
  match o.postfixBits with
  | some p =>
    if p > 3 then
      throw .invalidPostfix
    else
      setParam p
  | none => pure ()
  match o.directDistanceCodes with
  | some d =>
    let p := o.postfixBits.getD 0
    if d > (15 <<< p) || d &&& ((1 <<< p) - 1) ≠ 0 then
      throw .invalidDirectDistanceCodes
    else
      setParam d
  | none => pure ()
  match o.streamOffset with
  | some s =>
    if s > (1 <<< 30) then
      throw .invalidStreamOffset
    else
      setParam s
  | none => pure ()

/-- Engine interface for the encoder, as the adapters use it
(`BrotliEncoder::compress`, `take_output`, `is_finished`, `has_output`).
`compress e input cap op` returns the new state, `bytes_read`, and the list of
bytes written into a caller buffer of capacity `cap`. -/
structure EncModel (σ : Type) where
  compress : σ → List Nat → Nat → BrotliOperation → Except EncodeError (σ × Nat × List Nat)
  takeOutput : σ → Option (List Nat × σ)
  isFinished : σ → Bool
  hasOutput : σ → Bool

/-- Engine interface for the decoder, as the adapters use it
(`BrotliDecoder::decompress`, `take_output`, `is_finished`).
`decompress d input cap` returns the new state, `bytes_read`, the bytes
written, and the `DecoderInfo`. -/
structure DecModel (δ : Type) where
  decompress : δ → List Nat → Nat → Except DecodeError (δ × Nat × List Nat × DecoderInfo)
  takeOutput : δ → Option (List Nat × δ)
  isFinished : δ → Bool

/-- Modelled from the spec: block framing of the model codec.  The engine's
wire format is out of scope; the model frames a block of `n` staged bytes as
the header symbol `n + 1` followed by the bytes (header `0` is the stream
terminator emitted by Finish). -/
def encodeBlock (xs : List Nat) : List Nat :=
  (xs.length + 1) :: xs

/-- Modelled from the spec: state of the model encoder.  `staged` is input
copied into the internal buffer and not yet coded, `out` is coded output not
yet retrieved, `finished` records that a Finish operation was processed. -/
structure MEnc where
  staged : List Nat
  out : List Nat
  finished : Bool
deriving DecidableEq, Repr

/-- A freshly created model encoder (`BrotliEncoder::new`). -/
def MEnc.init : MEnc :=
  ⟨[], [], false⟩

/-- Modelled from the spec: one feed call of the model encoder.  It stages the
whole input, runs the coding step demanded by `op` (Process keeps staging,
Flush codes the staged block, Finish codes it and terminates the stream), and
copies up to `cap` coded bytes out.  Once finished, further feeds consume no
input and only hand out pending output. -/
def MEnc.compressImpl (e : MEnc) (input : List Nat) (cap : Nat) (op : BrotliOperation) :
    MEnc × Nat × List Nat :=
  if e.finished then
    (⟨e.staged, e.out.drop cap, true⟩, 0, e.out.take cap)
  else
    let staged1 := e.staged ++ input
    let e2 : MEnc :=
      match op with
      | .process => ⟨staged1, e.out, false⟩
      | .flush => ⟨[], e.out ++ encodeBlock staged1, false⟩
      | .finish => ⟨[], e.out ++ encodeBlock staged1 ++ [0], true⟩
    (⟨e2.staged, e2.out.drop cap, e2.finished⟩, input.length, e2.out.take cap)

/-- Modelled from the spec: `take_output` of the model encoder hands out the
whole pending buffer at once (a legal instance of the chunked contract). -/
def MEnc.takeOutputImpl (e : MEnc) : Option (List Nat × MEnc) :=
  if e.out.isEmpty then none else some (e.out, ⟨e.staged, [], e.finished⟩)

/-- Modelled from the spec: `is_finished` holds exactly when Finish was
processed and all resulting output retrieved. -/
def MEnc.isFinishedImpl (e : MEnc) : Bool :=
  e.finished && e.out.isEmpty

/-- The model encoder packaged as an `EncModel` instance. -/
def mencM : EncModel MEnc where
  compress e input cap op := .ok (MEnc.compressImpl e input cap op)
  takeOutput := MEnc.takeOutputImpl
  isFinished := MEnc.isFinishedImpl
  hasOutput e := !e.out.isEmpty

/-- Modelled from the spec: parse mode of the model decoder. -/
inductive DMode where
  | header
  | block
  | done
deriving DecidableEq, Repr

/-- Modelled from the spec: state of the model decoder.  `need` is the number
of data bytes still expected in the current block, `out` is decoded output not
yet retrieved. -/
structure MDec where
  mode : DMode
  need : Nat
  out : List Nat
deriving DecidableEq, Repr

/-- A freshly created model decoder (`BrotliDecoder::new`). -/
def MDec.init : MDec :=
  ⟨.header, 0, []⟩

/-- Modelled from the spec: consume one coded symbol.  In header position,
`0` terminates the stream, `1` is an empty block, `n + 2` opens a block of
`n + 1` data bytes; in block position the symbol is a data byte. -/
def stepSym (d : MDec) (x : Nat) : MDec :=
  match d.mode with
  | .header =>
    if x = 0 then ⟨.done, d.need, d.out⟩
    else if x = 1 then d
    else ⟨.block, x - 1, d.out⟩
  | .block =>
    if d.need ≤ 1 then ⟨.header, 0, d.out ++ [x]⟩
    else ⟨.block, d.need - 1, d.out ++ [x]⟩
  | .done => d

/-- Modelled from the spec: consume coded symbols until the stream terminator
has been seen or the input is exhausted; the input is never over-consumed past
the terminator.  Returns the new state and the number of symbols consumed. -/
def consumeSyms : MDec → List Nat → MDec × Nat
  | d, [] => (d, 0)
  | d, x :: xs =>
    if d.mode = .done then (d, 0)
    else
      let r := consumeSyms (stepSym d x) xs
      (r.1, r.2 + 1)

/-- Modelled from the spec: one feed call of the model decoder: consume input,
copy up to `cap` decoded bytes out, and report status (`Finished` when the
terminator was seen and all output handed out, `NeedsMoreOutput` when decoded
output remains, `NeedsMoreInput` otherwise). -/
def MDec.decompressImpl (d : MDec) (input : List Nat) (cap : Nat) :
    MDec × Nat × List Nat × DecoderInfo :=
  let c := consumeSyms d input
  let d1 := c.1
  let w := d1.out.take cap
  let d2 : MDec := ⟨d1.mode, d1.need, d1.out.drop cap⟩
  let info :=
    if d2.mode = .done ∧ d2.out.isEmpty then DecoderInfo.finished
    else if d2.out.isEmpty then DecoderInfo.needsMoreInput
    else DecoderInfo.needsMoreOutput
  (d2, c.2, w, info)

/-- Modelled from the spec: `take_output` of the model decoder. -/
def MDec.takeOutputImpl (d : MDec) : Option (List Nat × MDec) :=
  if d.out.isEmpty then none else some (d.out, ⟨d.mode, d.need, []⟩)

/-- The model decoder packaged as a `DecModel` instance. -/
def mdecM : DecModel MDec where
  decompress d input cap := .ok (MDec.decompressImpl d input cap)
  takeOutput := MDec.takeOutputImpl
  isFinished d := d.mode = DMode.done && d.out.isEmpty

/-- The complete coded stream the model engine produces for input `b`:
one block followed by the terminator. -/
def mencode (b : List Nat) : List Nat :=
  encodeBlock b ++ [0]

theorem mencode_eq (b : List Nat) : mencode b = (b.length + 1) :: (b ++ [0]) := by
  simp [mencode, encodeBlock]

theorem mencode_length (b : List Nat) : (mencode b).length = b.length + 2 := by
  simp [mencode_eq]

theorem consumeSyms_cons (d : MDec) (x : Nat) (xs : List Nat) (h : d.mode ≠ .done) :
    consumeSyms d (x :: xs) =
      ((consumeSyms (stepSym d x) xs).1, (consumeSyms (stepSym d x) xs).2 + 1) := by
  simp [consumeSyms, h]

theorem consume_block (b : List Nat) (o : List Nat) (hb : b ≠ []) :
    consumeSyms ⟨.block, b.length, o⟩ (b ++ [0]) = (⟨.done, 0, o ++ b⟩, b.length + 1) := by
  induction b generalizing o with
  | nil => exact absurd rfl hb
  | cons x t ih =>
    rw [List.cons_append, consumeSyms_cons _ _ _ (by simp)]
    cases t with
    | nil =>
      simp [consumeSyms, stepSym]
    | cons y t2 =>
      have hs : stepSym ⟨.block, (x :: y :: t2).length, o⟩ x =
          ⟨.block, (y :: t2).length, o ++ [x]⟩ := by
        simp only [stepSym, List.length_cons]
        rw [if_neg (by omega)]
        simp
      rw [hs, ih (o ++ [x]) (by simp)]
      simp

theorem consume_mencode (b : List Nat) :
    consumeSyms MDec.init (mencode b) = (⟨.done, 0, b⟩, b.length + 2) := by
  cases b with
  | nil =>
    decide
  | cons x t =>
    rw [mencode_eq, consumeSyms_cons _ _ _ (by simp [MDec.init])]
    have hs : stepSym MDec.init ((x :: t).length + 1) = ⟨.block, (x :: t).length, []⟩ := by
      simp only [stepSym, MDec.init, List.length_cons]
      rw [if_neg (by omega), if_neg (by omega)]
      simp
    rw [hs, consume_block (x :: t) [] (by simp)]
    simp

/-- Result of `<CompressorReader as Read>::read`: bytes written into the caller
buffer, the remaining inner reader, the stored operation and encoder after the
call.  `panicked` is the `unreachable!()` arm, `fuelOut` inexhaustible fuel. -/
inductive CRResult (σ : Type) where
  | ok (written : List Nat) (inner : List Nat) (op : BrotliOperation) (enc : σ)
  | err (e : EncodeError) (inner : List Nat) (op : BrotliOperation) (enc : σ)
  | panicked
  | fuelOut
deriving DecidableEq, Repr

/-- `<CompressorReader as Read>::read` from `encode.rs`.  The inner `BufRead`
is a byte list whose `fill_buf` yields the whole remainder; `cap` is the
caller buffer capacity (`buf.is_empty()` is `cap = 0`).  Mirrors the source
loop: feed, consume, then dispatch in source order on bytes written, buffer
emptiness, EOF, and the stored operation. -/
def CompressorReader.read (E : EncModel σ) :
    Nat → List Nat → BrotliOperation → σ → Nat → CRResult σ
  | 0, _, _, _, _ => .fuelOut
  | fuel + 1, inner, op, e, cap =>
    let input := inner
    let eof := input.isEmpty
    match E.compress e input cap op with
    | .error err => .err err inner op e
    | .ok (e1, bytesRead, written) =>
      let inner1 := inner.drop bytesRead
      if written.length > 0 then .ok written inner1 op e1
      else if cap = 0 then .ok [] inner1 op e1
      else if eof = false then CompressorReader.read E fuel inner1 op e1 cap
      else
        match op with
        | .process => CompressorReader.read E fuel inner1 .finish e1 cap
        | .finish => .ok [] inner1 .finish e1
        | .flush => .panicked

/-- Driver for `Read::read_to_end` over a `CompressorReader`: call `read`
until it returns zero bytes, concatenating the chunks. -/
def crReadToEnd (E : EncModel σ) :
    Nat → Nat → List Nat → BrotliOperation → σ → Nat → List Nat → Option (List Nat)
  | 0, _, _, _, _, _, _ => none
  | fuel + 1, rfuel, inner, op, e, cap, acc =>
    match CompressorReader.read E rfuel inner op e cap with
    | .ok [] _ _ _ => some acc
    | .ok w inner1 op1 e1 => crReadToEnd E fuel rfuel inner1 op1 e1 cap (acc ++ w)
    | _ => none

/-- Outcome of one `write_all` (or `flush`) call on the wrapped writer:
success, an I/O error return, or an unwinding panic. -/
inductive WOut (ω : Type) where
  | ok (w : ω)
  | ioerr (w : ω)
  | panicked (w : ω)
deriving DecidableEq, Repr

/-- Interface of the wrapped `Write` sink used by the sink adapters. -/
structure WModel (ω : Type) where
  writeAll : ω → List Nat → WOut ω
  flushInner : ω → WOut ω

/-- State of a `CompressorWriter<W>` from `encode.rs`: inner writer, encoder,
and the `panicked` fault flag. -/
structure CWState (σ ω : Type) where
  enc : σ
  inner : ω
  panicked : Bool
deriving DecidableEq, Repr

/-- Outcome of a `CompressorWriter` operation: normal return, an I/O error
return, an encoder error return, an unwinding panic, or exhausted fuel. -/
inductive CWRes (σ ω : Type) where
  | ok (st : CWState σ ω)
  | ioerr (st : CWState σ ω)
  | encErr (e : EncodeError) (st : CWState σ ω)
  | panicked (st : CWState σ ω)
  | fuelOut
deriving DecidableEq, Repr

/-- `CompressorWriter::flush_encoder_output` from `encode.rs`: take pending
encoder output and `write_all` it to the inner writer until none remains,
setting the fault flag around each downstream write and clearing it when the
write returns (also on an error return; only an unwind leaves it set).  The
second component is a ghost trace recording the fault flag at the moment of
each downstream write call. -/
def flushEncoderOutput (W : WModel ω) (E : EncModel σ) :
    Nat → CWState σ ω → CWRes σ ω × List Bool
  | 0, _ => (.fuelOut, [])
  | fuel + 1, st =>
    match E.takeOutput st.enc with
    | none => (.ok st, [])
    | some (out, e1) =>
      let st1 : CWState σ ω := ⟨e1, st.inner, true⟩
      match W.writeAll st1.inner out with
      | .ok w =>
        let r := flushEncoderOutput W E fuel ⟨e1, w, false⟩
        (r.1, st1.panicked :: r.2)
      | .ioerr w => (.ioerr ⟨e1, w, false⟩, [st1.panicked])
      | .panicked w => (.panicked ⟨e1, w, true⟩, [st1.panicked])

/-- `CompressorWriter::finish` from `encode.rs`: one `encoder.finish()`
(feed of Finish with empty input and no output buffer), then drain. -/
def CompressorWriter.finish (W : WModel ω) (E : EncModel σ) (fuel : Nat)
    (st : CWState σ ω) : CWRes σ ω :=
  match E.compress st.enc [] 0 .finish with
  | .error e => .encErr e st
  | .ok (e1, _, _) => (flushEncoderOutput W E fuel ⟨e1, st.inner, st.panicked⟩).1

/-- `WriterPanicked` from `encode.rs`: carries the encoder back to the caller
after the inner writer panicked. -/
structure WriterPanicked (σ : Type) where
  encoder : σ
deriving DecidableEq, Repr

/-- `CompressorWriter::into_parts` from `encode.rs`: hand back the inner
writer, and the encoder either directly or wrapped in `WriterPanicked`
according to the fault flag. -/
def CompressorWriter.intoParts (st : CWState σ ω) :
    ω × Except (WriterPanicked σ) σ :=
  (st.inner, if st.panicked = false then .ok st.enc else .error ⟨st.enc⟩)

/-- Result of `CompressorWriter::into_inner`: the inner writer on success, or
the error together with the whole adapter (`IntoInnerError`). -/
inductive IIRes (σ ω : Type) where
  | ok (w : ω)
  | err (adapter : CWState σ ω)
  | panicked (st : CWState σ ω)
  | fuelOut
deriving DecidableEq, Repr

/-- `CompressorWriter::into_inner` from `encode.rs`: finish the stream; on an
error return hand back the error and the adapter, otherwise the inner
writer. -/
def CompressorWriter.intoInner (W : WModel ω) (E : EncModel σ) (fuel : Nat)
    (st : CWState σ ω) : IIRes σ ω :=
  match CompressorWriter.finish W E fuel st with
  | .ok st1 => .ok st1.inner
  | .ioerr st1 => .err st1
  | .encErr _ st1 => .err st1
  | .panicked st1 => .panicked st1
  | .fuelOut => .fuelOut

/-- `<CompressorWriter as Write>::write` from `encode.rs`: feed the buffer
with Process and no output space, drain, and return the consumed count. -/
def CompressorWriter.write (W : WModel ω) (E : EncModel σ) (fuel : Nat)
    (st : CWState σ ω) (buf : List Nat) : CWRes σ ω × Nat :=
  match E.compress st.enc buf 0 .process with
  | .error e => (.encErr e st, 0)
  | .ok (e1, bytesRead, _) =>
    ((flushEncoderOutput W E fuel ⟨e1, st.inner, st.panicked⟩).1, bytesRead)

/-- `<CompressorWriter as Write>::flush` from `encode.rs`: feed Flush with
empty input, drain, then flush the inner writer. -/
def CompressorWriter.flushW (W : WModel ω) (E : EncModel σ) (fuel : Nat)
    (st : CWState σ ω) : CWRes σ ω :=
  match E.compress st.enc [] 0 .flush with
  | .error e => .encErr e st
  | .ok (e1, _, _) =>
    match (flushEncoderOutput W E fuel ⟨e1, st.inner, st.panicked⟩).1 with
    | .ok st1 =>
      match W.flushInner st1.inner with
      | .ok w => .ok ⟨st1.enc, w, st1.panicked⟩
      | .ioerr w => .ioerr ⟨st1.enc, w, st1.panicked⟩
      | .panicked w => .panicked ⟨st1.enc, w, st1.panicked⟩
    | r => r

/-- Outcome of `<CompressorWriter as Drop>::drop`: the adapter state left
behind (errors swallowed), or an unwinding panic from the inner writer. -/
inductive DropRes (σ ω : Type) where
  | norm (st : CWState σ ω)
  | panicked (st : CWState σ ω)
  | fuelOut
deriving DecidableEq, Repr

/-- `<CompressorWriter as Drop>::drop` from `encode.rs`: when the fault flag
is clear, best-effort `finish()` with the result discarded; when it is set,
do nothing. -/
def CompressorWriter.dropImpl (W : WModel ω) (E : EncModel σ) (fuel : Nat)
    (st : CWState σ ω) : DropRes σ ω :=
  if st.panicked then .norm st
  else
    match CompressorWriter.finish W E fuel st with
    | .ok st1 => .norm st1
    | .ioerr st1 => .norm st1
    | .encErr _ st1 => .norm st1
    | .panicked st1 => .panicked st1
    | .fuelOut => .fuelOut

/-- Modelled from the spec: the finalize sequence as the spec words it —
request op=Finish, drain pending output, and repeat until the encoder reports
`is_finished()`. -/
def finishSpecLoop (W : WModel ω) (E : EncModel σ) :
    Nat → Nat → CWState σ ω → CWRes σ ω
  | 0, _, _ => .fuelOut
  | fuel + 1, dfuel, st =>
    match E.compress st.enc [] 0 .finish with
    | .error e => .encErr e st
    | .ok (e1, _, _) =>
      match (flushEncoderOutput W E dfuel ⟨e1, st.inner, st.panicked⟩).1 with
      | .ok st1 =>
        if E.isFinished st1.enc then .ok st1
        else finishSpecLoop W E fuel dfuel st1
      | r => r

/-- Modelled from the spec: the flush sequence as the spec words it — request
op=Flush with empty input, drain, repeat until the encoder reports no more
pending output, then flush the inner sink. -/
def flushSpecLoop (W : WModel ω) (E : EncModel σ) :
    Nat → Nat → CWState σ ω → CWRes σ ω
  | 0, _, _ => .fuelOut
  | fuel + 1, dfuel, st =>
    match E.compress st.enc [] 0 .flush with
    | .error e => .encErr e st
    | .ok (e1, _, _) =>
      match (flushEncoderOutput W E dfuel ⟨e1, st.inner, st.panicked⟩).1 with
      | .ok st1 =>
        if E.hasOutput st1.enc then flushSpecLoop W E fuel dfuel st1
        else
          match W.flushInner st1.inner with
          | .ok w => .ok ⟨st1.enc, w, st1.panicked⟩
          | .ioerr w => .ioerr ⟨st1.enc, w, st1.panicked⟩
          | .panicked w => .panicked ⟨st1.enc, w, st1.panicked⟩
      | r => r

/-- Read-call errors surfaced by the decompressing source adapter. -/
inductive ReadError where
  | unexpectedEof
  | decode (e : DecodeError)
deriving DecidableEq, Repr

/-- Result of `<DecompressorReader as Read>::read`. -/
inductive DRResult (δ : Type) where
  | ok (written : List Nat) (inner : List Nat) (dec : δ)
  | err (e : ReadError) (inner : List Nat) (dec : δ)
  | panicked
  | fuelOut
deriving DecidableEq, Repr

/-- `<DecompressorReader as Read>::read` from `decode.rs`: fill, decompress,
consume, then dispatch in source order — bytes written, `Finished`,
`NeedsMoreInput` at EOF (unexpected end of stream), `NeedsMoreInput`
(continue), `NeedsMoreOutput` with an empty caller buffer (return 0),
`NeedsMoreOutput` otherwise (panic). -/
def DecompressorReader.read (D : DecModel δ) :
    Nat → List Nat → δ → Nat → DRResult δ
  | 0, _, _, _ => .fuelOut
  | fuel + 1, inner, d, cap =>
    let input := inner
    let eof := input.isEmpty
    match D.decompress d input cap with
    | .error e => .err (.decode e) inner d
    | .ok (d1, bytesRead, written, info) =>
      let inner1 := inner.drop bytesRead
      if written.length > 0 then .ok written inner1 d1
      else
        match info with
        | .finished => .ok [] inner1 d1
        | .needsMoreInput =>
          if eof then .err .unexpectedEof inner1 d1
          else DecompressorReader.read D fuel inner1 d1 cap
        | .needsMoreOutput =>
          if cap = 0 then .ok [] inner1 d1 else .panicked

/-- Driver for `Read::read_to_end` over a `DecompressorReader`. -/
def drReadToEnd (D : DecModel δ) :
    Nat → Nat → List Nat → δ → Nat → List Nat → Option (List Nat)
  | 0, _, _, _, _, _ => none
  | fuel + 1, rfuel, inner, d, cap, acc =>
    match DecompressorReader.read D rfuel inner d cap with
    | .ok [] _ _ => some acc
    | .ok w inner1 d1 => drReadToEnd D fuel rfuel inner1 d1 cap (acc ++ w)
    | _ => none

/-- State of a `DecompressorWriter<W>` from `decode.rs`. -/
structure DWState (δ ω : Type) where
  dec : δ
  inner : ω
  panicked : Bool
deriving DecidableEq, Repr

/-- Outcome of a `DecompressorWriter` operation. -/
inductive DWRes (δ ω : Type) where
  | ok (st : DWState δ ω)
  | ioerr (st : DWState δ ω)
  | decErr (e : DecodeError) (st : DWState δ ω)
  | panicked (st : DWState δ ω)
  | fuelOut
deriving DecidableEq, Repr

/-- `DecompressorWriter::flush_decoder_output` from `decode.rs`: drain the
decoder's pending output to the inner writer, with the same fault-flag
discipline as the compressing sink. -/
def flushDecoderOutput (W : WModel ω) (D : DecModel δ) :
    Nat → DWState δ ω → DWRes δ ω
  | 0, _ => .fuelOut
  | fuel + 1, st =>
    match D.takeOutput st.dec with
    | none => .ok st
    | some (out, d1) =>
      match W.writeAll st.inner out with
      | .ok w => flushDecoderOutput W D fuel ⟨d1, w, false⟩
      | .ioerr w => .ioerr ⟨d1, w, false⟩
      | .panicked w => .panicked ⟨d1, w, true⟩

/-- `<DecompressorWriter as Write>::write` from `decode.rs`: `give_input`
(decompress with no output buffer), drain, return the consumed count. -/
def DecompressorWriter.write (W : WModel ω) (D : DecModel δ) (fuel : Nat)
    (st : DWState δ ω) (buf : List Nat) : DWRes δ ω × Nat :=
  match D.decompress st.dec buf 0 with
  | .error e => (.decErr e st, 0)
  | .ok (d1, bytesRead, _, _) =>
    (flushDecoderOutput W D fuel ⟨d1, st.inner, st.panicked⟩, bytesRead)

/-- `DecompressorWriter::into_inner` from `decode.rs`: succeeds with the inner
writer only when the decoder reports the stream finished. -/
def DecompressorWriter.intoInner (D : DecModel δ) (st : DWState δ ω) :
    Except (DWState δ ω) ω :=
  if D.isFinished st.dec then .ok st.inner else .error st

/-- Driver for `Write::write_all` over a `DecompressorWriter`: feed the
remaining buffer until it is fully consumed. -/
def dwWriteAll (W : WModel ω) (D : DecModel δ) :
    Nat → Nat → DWState δ ω → List Nat → Option (DWState δ ω)
  | 0, _, _, _ => none
  | fuel + 1, wfuel, st, buf =>
    match DecompressorWriter.write W D wfuel st buf with
    | (.ok st1, n) =>
      if buf.length ≤ n then some st1
      else dwWriteAll W D fuel wfuel st1 (buf.drop n)
    | _ => none

/-- Driver for `Write::write_all` over a `CompressorWriter`. -/
def cwWriteAll (W : WModel ω) (E : EncModel σ) :
    Nat → Nat → CWState σ ω → List Nat → Option (CWState σ ω)
  | 0, _, _, _ => none
  | fuel + 1, wfuel, st, buf =>
    match CompressorWriter.write W E wfuel st buf with
    | (.ok st1, n) =>
      if buf.length ≤ n then some st1
      else cwWriteAll W E fuel wfuel st1 (buf.drop n)
    | _ => none

/-- The `Vec<u8>` inner writer: accumulates bytes and never fails. -/
def vecW : WModel (List Nat) where
  writeAll w buf := .ok (w ++ buf)
  flushInner w := .ok w

/-- Kind of outcome a scripted writer produces for one call. -/
inductive WKind where
  | okK
  | ioerrK
  | panicK
deriving DecidableEq, Repr

/-- A scripted inner writer: the `plan` assigns an outcome to each
`write_all` call by index (defaulting to success), `data` accumulates the
successfully written bytes. -/
structure SW where
  plan : List WKind
  calls : Nat
  data : List Nat
deriving DecidableEq, Repr

/-- The scripted writer packaged as a `WModel`. -/
def swW : WModel SW where
  writeAll w buf :=
    match w.plan.getD w.calls .okK with
    | .okK => .ok ⟨w.plan, w.calls + 1, w.data ++ buf⟩
    | .ioerrK => .ioerr ⟨w.plan, w.calls + 1, w.data⟩
    | .panicK => .panicked ⟨w.plan, w.calls + 1, w.data⟩
  flushInner w := .ok w

/-- A scripted decoder: each `decompress` call pops the next scripted
response (bytes read are clamped to the offered input, output to the offered
capacity), so that any interface-conforming engine answer can be exhibited. -/
def sdec : DecModel (List (Nat × List Nat × DecoderInfo)) where
  decompress d input cap :=
    match d with
    | [] => .ok ([], 0, [], .needsMoreInput)
    | (r, w, i) :: rest => .ok (rest, min r input.length, w.take cap, i)
  takeOutput _ := none
  isFinished _ := false

/-- Modelled from the spec: the one-shot `compress` of `lib.rs`
(`BrotliEncoderCompress`, engine FFI): run the model engine over the whole
input with Finish into a buffer of capacity `cap`; fails when the coded
stream does not fit. -/
def compress (input : List Nat) (cap : Nat) : Option (List Nat) :=
  match mencM.compress MEnc.init input cap .finish with
  | .ok (e1, _, written) => if mencM.isFinished e1 then some written else none
  | .error _ => none

/-- Modelled from the spec: the one-shot `decompress` of `lib.rs`
(`BrotliDecoderDecompress`, engine FFI): run the model decoder over the whole
input into a buffer of capacity `cap`; succeeds only on a finished stream. -/
def decompress (input : List Nat) (cap : Nat) : Option (List Nat) :=
  match mdecM.decompress MDec.init input cap with
  | .ok (_, _, written, .finished) => some written
  | _ => none

theorem take_all_of_len (l : List Nat) (n : Nat) (h : l.length ≤ n) : l.take n = l :=
  List.take_of_length_le h

theorem drop_all_of_len (l : List Nat) (n : Nat) (h : l.length ≤ n) : l.drop n = [] :=
  List.drop_eq_nil_of_le h

theorem take_mencode (b : List Nat) : (mencode b).take (b.length + 2) = mencode b :=
  take_all_of_len _ _ (by simp [mencode_length])

theorem drop_mencode (b : List Nat) : (mencode b).drop (b.length + 2) = [] :=
  drop_all_of_len _ _ (by simp [mencode_length])

theorem mencode_ne_nil (b : List Nat) : mencode b ≠ [] := by
  simp [mencode_eq]

/-- End-to-end compression of `b` through a `CompressorWriter` wrapping a
`Vec` writer: write all of `b`, then `into_inner`. -/
def pipeCW (b : List Nat) : Option (List Nat) :=
  (cwWriteAll vecW mencM 1 2 ⟨MEnc.init, [], false⟩ b).bind fun st =>
    match CompressorWriter.intoInner vecW mencM 2 st with
    | .ok w => some w
    | _ => none

/-- End-to-end compression of `b` through a `CompressorReader` reading from
`b`, collected with `read_to_end` into a buffer of capacity `b.length + 2`. -/
def pipeCR (b : List Nat) : Option (List Nat) :=
  crReadToEnd mencM 3 4 b .process MEnc.init (b.length + 2) []

/-- End-to-end decompression of a coded stream through a `DecompressorWriter`
wrapping a `Vec` writer: write the whole stream, then `into_inner`. -/
def pipeDW (c : List Nat) : Option (List Nat) :=
  (dwWriteAll vecW mdecM 1 2 ⟨MDec.init, [], false⟩ c).bind fun st =>
    match DecompressorWriter.intoInner mdecM st with
    | .ok w => some w
    | .error _ => none

/-- End-to-end decompression of a coded stream through a `DecompressorReader`,
collected with `read_to_end` into a buffer of capacity `cap`. -/
def pipeDR (cap : Nat) (c : List Nat) : Option (List Nat) :=
  drReadToEnd mdecM 3 3 c MDec.init cap []

theorem pipeCW_eq (b : List Nat) : pipeCW b = some (mencode b) := by
  simp [pipeCW, cwWriteAll, CompressorWriter.write, CompressorWriter.intoInner,
    CompressorWriter.finish, flushEncoderOutput, mencM, MEnc.compressImpl, MEnc.init,
    MEnc.takeOutputImpl, vecW, mencode, encodeBlock]

theorem pipeCR_eq (b : List Nat) : pipeCR b = some (mencode b) := by
  cases b with
  | nil => decide
  | cons x t =>
    simp [pipeCR, crReadToEnd, CompressorReader.read, mencM, MEnc.compressImpl,
      MEnc.init, mencode, encodeBlock, take_all_of_len, drop_all_of_len]

theorem mencode_isEmpty (b : List Nat) : (mencode b).isEmpty = false := by
  simp [mencode_eq]

theorem pipeDW_eq (b : List Nat) : pipeDW (mencode b) = some b := by
  cases b with
  | nil => decide
  | cons x t =>
    simp [pipeDW, dwWriteAll, DecompressorWriter.write, DecompressorWriter.intoInner,
      flushDecoderOutput, mdecM, MDec.decompressImpl, MDec.takeOutputImpl,
      consume_mencode, mencode_length, vecW]

theorem consumeSyms_nil (d : MDec) : consumeSyms d [] = (d, 0) :=
  rfl

theorem pipeDR_eq (b : List Nat) : pipeDR (b.length + 1) (mencode b) = some b := by
  cases b with
  | nil => decide
  | cons x t =>
    simp [pipeDR, drReadToEnd, DecompressorReader.read, mdecM, MDec.decompressImpl,
      consume_mencode, mencode_isEmpty, mencode_length, drop_mencode, consumeSyms_nil,
      take_all_of_len, drop_all_of_len]

theorem consume_encodeBlock (b : List Nat) :
    consumeSyms MDec.init (encodeBlock b ++ [0]) = (⟨.done, 0, b⟩, b.length + 2) :=
  consume_mencode b

theorem encodeBlock_term_length (b : List Nat) :
    (encodeBlock b ++ [0]).length = b.length + 2 := by
  simp [encodeBlock]

theorem encodeBlock_length (b : List Nat) : (encodeBlock b).length = b.length + 1 := by
  simp [encodeBlock]

theorem oneshot_roundtrip (b : List Nat) :
    ((compress b (b.length + 2)).bind fun c => decompress c b.length) = some b := by
  simp [compress, decompress, mencM, mdecM, MEnc.compressImpl, MEnc.init,
    MEnc.isFinishedImpl, MDec.decompressImpl, consume_encodeBlock,
    encodeBlock_term_length, encodeBlock_length, take_all_of_len, drop_all_of_len]

/-- C1: decompressing the result of compressing any byte sequence `b` yields
exactly `b`, via the one-shot compress/decompress pair and via every pairing
of a compressing adapter (`CompressorWriter` or `CompressorReader`) with a
decompressing adapter (`DecompressorWriter` or `DecompressorReader`), over the
specification-faithful model codec engine. -/
theorem C1_roundtrip (b : List Nat) :
    ((compress b (b.length + 2)).bind fun c => decompress c b.length) = some b
    ∧ ((pipeCW b).bind fun c => pipeDW c) = some b
    ∧ ((pipeCW b).bind fun c => pipeDR (b.length + 1) c) = some b
    ∧ ((pipeCR b).bind fun c => pipeDW c) = some b
    ∧ ((pipeCR b).bind fun c => pipeDR (b.length + 1) c) = some b := by
  refine ⟨oneshot_roundtrip b, ?_, ?_, ?_, ?_⟩ <;>
    simp [pipeCW_eq, pipeCR_eq, pipeDW_eq, pipeDR_eq]

theorem flushEnc_menc (W : WModel ω) (e : MEnc) (inner : ω) (p : Bool) :
    (flushEncoderOutput W mencM 2 ⟨e, inner, p⟩).1 =
      if e.out.isEmpty then .ok ⟨e, inner, p⟩
      else
        match W.writeAll inner e.out with
        | .ok w => .ok ⟨⟨e.staged, [], e.finished⟩, w, false⟩
        | .ioerr w => .ioerr ⟨⟨e.staged, [], e.finished⟩, w, false⟩
        | .panicked w => .panicked ⟨⟨e.staged, [], e.finished⟩, w, true⟩ := by
  obtain ⟨staged, out, fin⟩ := e
  cases out with
  | nil => simp [flushEncoderOutput, mencM, MEnc.takeOutputImpl]
  | cons y ys =>
    simp only [flushEncoderOutput, mencM, MEnc.takeOutputImpl, List.isEmpty_cons,
      Bool.false_eq_true, if_false, if_neg]
    cases W.writeAll inner (y :: ys) <;>
      simp [flushEncoderOutput, mencM, MEnc.takeOutputImpl]

theorem mencM_compress (e : MEnc) (input : List Nat) (cap : Nat) (op : BrotliOperation) :
    mencM.compress e input cap op = .ok (MEnc.compressImpl e input cap op) :=
  rfl

theorem out_finish_isEmpty (out s : List Nat) :
    (out ++ encodeBlock s ++ [0]).isEmpty = false := by
  simp [encodeBlock]

theorem flushEnc_menc_ok_enc (W : WModel ω) (e : MEnc) (inner : ω) (p : Bool)
    (s : CWState MEnc ω)
    (h : (flushEncoderOutput W mencM 2 ⟨e, inner, p⟩).1 = .ok s) :
    s.enc.out = [] ∨ s.enc = e := by
  rw [flushEnc_menc] at h
  by_cases he : e.out.isEmpty
  · rw [if_pos he] at h
    right
    have : CWState.mk e inner p = s := by injection h
    rw [← this]
  · rw [if_neg he] at h
    cases hw : W.writeAll inner e.out with
    | ok w =>
      rw [hw] at h
      left
      have : CWState.mk ⟨e.staged, [], e.finished⟩ w false = s := by injection h
      rw [← this]
    | ioerr w => rw [hw] at h; exact absurd h (by simp)
    | panicked w => rw [hw] at h; exact absurd h (by simp)

theorem finish_eq_spec (W : WModel ω) (st : CWState MEnc ω) :
    CompressorWriter.finish W mencM 2 st = finishSpecLoop W mencM 1 2 st := by
  obtain ⟨⟨staged, out, fin⟩, inner, p⟩ := st
  cases fin with
  | false =>
    simp only [CompressorWriter.finish, finishSpecLoop, mencM_compress, MEnc.compressImpl,
      Bool.false_eq_true, if_false, List.append_nil, List.drop_zero, List.take_zero]
    rw [flushEnc_menc]
    simp only [out_finish_isEmpty, Bool.false_eq_true, if_false]
    cases hw : W.writeAll inner (out ++ encodeBlock staged ++ [0]) <;>
      simp [mencM, MEnc.isFinishedImpl]
  | true =>
    simp only [CompressorWriter.finish, finishSpecLoop, mencM_compress, MEnc.compressImpl,
      if_true, List.drop_zero, List.take_zero]
    rw [flushEnc_menc]
    cases out with
    | nil => simp [mencM, MEnc.isFinishedImpl]
    | cons y ys =>
      simp only [List.isEmpty_cons, Bool.false_eq_true, if_false]
      cases hw : W.writeAll inner (y :: ys) <;> simp [mencM, MEnc.isFinishedImpl]

theorem out_flush_isEmpty (out s : List Nat) :
    (out ++ encodeBlock s).isEmpty = false := by
  simp [encodeBlock]

theorem flushW_eq_spec (W : WModel ω) (st : CWState MEnc ω) :
    CompressorWriter.flushW W mencM 2 st = flushSpecLoop W mencM 1 2 st := by
  obtain ⟨⟨staged, out, fin⟩, inner, p⟩ := st
  cases fin with
  | false =>
    simp only [CompressorWriter.flushW, flushSpecLoop, mencM_compress, MEnc.compressImpl,
      Bool.false_eq_true, if_false, List.append_nil, List.drop_zero, List.take_zero]
    rw [flushEnc_menc]
    simp only [out_flush_isEmpty, Bool.false_eq_true, if_false]
    cases hw : W.writeAll inner (out ++ encodeBlock staged) <;> simp [mencM]
  | true =>
    simp only [CompressorWriter.flushW, flushSpecLoop, mencM_compress, MEnc.compressImpl,
      if_true, List.drop_zero, List.take_zero]
    rw [flushEnc_menc]
    cases out with
    | nil => simp [mencM]
    | cons y ys =>
      simp only [List.isEmpty_cons, Bool.false_eq_true, if_false]
      cases hw : W.writeAll inner (y :: ys) <;> simp [mencM]

/-- C2: `CompressorWriter::into_inner` finalizes exactly as the spec's
repeat-Finish-and-drain-until-`is_finished` loop prescribes (behavioural
equality over the model engine, for every adapter state and every inner
writer), returns the inner writer on success, and on a downstream write
failure returns the error together with the intact adapter (the
`IntoInnerError`), so neither buffered data nor the encoder handle is
dropped. -/
theorem C2_intoInner_finish (W : WModel ω) (st : CWState MEnc ω) :
    CompressorWriter.finish W mencM 2 st = finishSpecLoop W mencM 1 2 st
    ∧ (∀ st1, CompressorWriter.finish W mencM 2 st = .ioerr st1 →
        CompressorWriter.intoInner W mencM 2 st = .err st1)
    ∧ (∀ st1, CompressorWriter.finish W mencM 2 st = .ok st1 →
        CompressorWriter.intoInner W mencM 2 st = .ok st1.inner) := by
  refine ⟨finish_eq_spec W st, ?_, ?_⟩ <;> intro st1 h <;>
    simp [CompressorWriter.intoInner, h]

theorem C2_witness :
    CompressorWriter.finish swW mencM 2
        ⟨⟨[5], [], false⟩, ⟨[WKind.ioerrK], 0, []⟩, false⟩ =
      CWRes.ioerr ⟨⟨[], [], true⟩, ⟨[WKind.ioerrK], 1, []⟩, false⟩
    ∧ CompressorWriter.intoInner swW mencM 2
        ⟨⟨[5], [], false⟩, ⟨[WKind.ioerrK], 0, []⟩, false⟩ =
      IIRes.err ⟨⟨[], [], true⟩, ⟨[WKind.ioerrK], 1, []⟩, false⟩ :=
  ⟨by decide,
    (C2_intoInner_finish swW ⟨⟨[5], [], false⟩, ⟨[WKind.ioerrK], 0, []⟩, false⟩).2.1
      ⟨⟨[], [], true⟩, ⟨[WKind.ioerrK], 1, []⟩, false⟩ (by decide)⟩

/-- C3: `<CompressorWriter as Write>::flush` behaves exactly as the spec's
repeat-Flush-with-empty-input-and-drain loop (until the encoder reports no
pending output) followed by a flush of the inner writer, for every adapter
state over the model engine and every inner writer. -/
theorem C3_flush_spec (W : WModel ω) (st : CWState MEnc ω) :
    CompressorWriter.flushW W mencM 2 st = flushSpecLoop W mencM 1 2 st :=
  flushW_eq_spec W st

/-- C4: while `flush_encoder_output` drains, every downstream write is issued
with the fault flag set (the ghost trace is all `true`); when a downstream
write unwinds, the resulting adapter has the flag set and `into_parts` hands
the encoder back wrapped in `WriterPanicked`; when the drain returns normally
or with an I/O error, the flag is clear again (no fault happened mid-write). -/
theorem C4_fault_flag (W : WModel ω) (E : EncModel σ) (fuel : Nat) (st : CWState σ ω) :
    (∀ x ∈ (flushEncoderOutput W E fuel st).2, x = true)
    ∧ (∀ st1, (flushEncoderOutput W E fuel st).1 = .panicked st1 →
        st1.panicked = true ∧
        CompressorWriter.intoParts st1 = (st1.inner, .error ⟨st1.enc⟩))
    ∧ (∀ st1, (flushEncoderOutput W E fuel st).1 = .ioerr st1 → st1.panicked = false)
    ∧ (st.panicked = false →
        ∀ st1, (flushEncoderOutput W E fuel st).1 = .ok st1 → st1.panicked = false) := by
  induction fuel generalizing st with
  | zero => simp [flushEncoderOutput]
  | succ n ih =>
    cases hT : E.takeOutput st.enc with
    | none =>
      simp [flushEncoderOutput, hT]
    | some pr =>
      obtain ⟨out, e1⟩ := pr
      cases hw : W.writeAll st.inner out with
      | ok w =>
        obtain ⟨ih1, ih2, ih3, ih4⟩ := ih ⟨e1, w, false⟩
        simp only [flushEncoderOutput, hT, hw, List.mem_cons]
        refine ⟨?_, ih2, ih3, fun _ => ih4 rfl⟩
        intro x hx
        rcases hx with rfl | hx
        · rfl
        · exact ih1 x hx
      | ioerr w =>
        simp [flushEncoderOutput, hT, hw]
      | panicked w =>
        simp [flushEncoderOutput, hT, hw, CompressorWriter.intoParts]

theorem C4_witness :
    (flushEncoderOutput swW mencM 2
        ⟨⟨[], [7], false⟩, ⟨[WKind.panicK], 0, []⟩, false⟩).1 =
      CWRes.panicked ⟨⟨[], [], false⟩, ⟨[WKind.panicK], 1, []⟩, true⟩
    ∧ ((⟨⟨[], [], false⟩, ⟨[WKind.panicK], 1, []⟩, true⟩ : CWState MEnc SW).panicked = true
        ∧ CompressorWriter.intoParts
            (⟨⟨[], [], false⟩, ⟨[WKind.panicK], 1, []⟩, true⟩ : CWState MEnc SW) =
          (⟨[WKind.panicK], 1, []⟩, .error ⟨⟨[], [], false⟩⟩)) :=
  ⟨by decide,
    (C4_fault_flag swW mencM 2 ⟨⟨[], [7], false⟩, ⟨[WKind.panicK], 0, []⟩, false⟩).2.1
      ⟨⟨[], [], false⟩, ⟨[WKind.panicK], 1, []⟩, true⟩ (by decide)⟩

/-- Swallow a finalize outcome as a destructor must: error returns are
discarded, an unwind propagates. -/
def swallow (r : CWRes σ ω) : DropRes σ ω :=
  match r with
  | .ok st1 => .norm st1
  | .ioerr st1 => .norm st1
  | .encErr _ st1 => .norm st1
  | .panicked st1 => .panicked st1
  | .fuelOut => .fuelOut

/-- C9: dropping a `CompressorWriter` without explicit finalization performs
the same Finish sequence as `into_inner` (the spec's finalize loop) with any
resulting errors swallowed, and performs nothing when the fault flag is
already set. -/
theorem C9_drop (W : WModel ω) (st : CWState MEnc ω) :
    (st.panicked = true → CompressorWriter.dropImpl W mencM 2 st = .norm st)
    ∧ (st.panicked = false →
        CompressorWriter.dropImpl W mencM 2 st = swallow (finishSpecLoop W mencM 1 2 st)) := by
  constructor
  · intro h
    simp [CompressorWriter.dropImpl, h]
  · intro h
    rw [← finish_eq_spec]
    cases hF : CompressorWriter.finish W mencM 2 st <;>
      simp [CompressorWriter.dropImpl, h, hF, swallow]

theorem C9_witness :
    CompressorWriter.dropImpl vecW mencM 2 ⟨⟨[], [9], false⟩, [], true⟩ =
      DropRes.norm ⟨⟨[], [9], false⟩, [], true⟩
    ∧ CompressorWriter.dropImpl vecW mencM 2 ⟨⟨[9], [], false⟩, [], false⟩ =
        swallow (finishSpecLoop vecW mencM 1 2 ⟨⟨[9], [], false⟩, [], false⟩) :=
  ⟨(C9_drop vecW ⟨⟨[], [9], false⟩, [], true⟩).1 rfl,
    (C9_drop vecW ⟨⟨[9], [], false⟩, [], false⟩).2 rfl⟩

/-- C5: when the decoder reports `NeedsMoreInput` with no bytes produced and
the upstream reader is at EOF (a truncated coded stream), `read` returns the
unexpected-end-of-stream error instead of a silent 0; when the decoder reports
`NeedsMoreInput` and more upstream data is available, `read` keeps looping. -/
theorem C5_truncated_eof (D : DecModel δ) (fuel cap r : Nat) (d d1 : δ) :
    (D.decompress d [] cap = .ok (d1, r, [], .needsMoreInput) →
      DecompressorReader.read D (fuel + 1) [] d cap = .err .unexpectedEof [] d1)
    ∧ (∀ inner : List Nat, inner ≠ [] →
        D.decompress d inner cap = .ok (d1, r, [], .needsMoreInput) →
        DecompressorReader.read D (fuel + 1) inner d cap =
          DecompressorReader.read D fuel (inner.drop r) d1 cap) := by
  constructor
  · intro h
    simp [DecompressorReader.read, h]
  · intro inner hne h
    simp [DecompressorReader.read, h, List.isEmpty_iff, hne]

theorem C5_witness :
    DecompressorReader.read mdecM 1 [] ⟨.block, 1, []⟩ 1 =
      DRResult.err .unexpectedEof [] ⟨.block, 1, []⟩
    ∧ DecompressorReader.read mdecM 2 [2] MDec.init 1 =
        DecompressorReader.read mdecM 1 [] ⟨.block, 1, []⟩ 1 := by
  constructor
  · exact (C5_truncated_eof mdecM 0 1 0 ⟨.block, 1, []⟩ ⟨.block, 1, []⟩).1 rfl
  · have h := (C5_truncated_eof mdecM 1 1 1 MDec.init ⟨.block, 1, []⟩).2 [2]
      (by simp) rfl
    simpa using h

/-- C6: in `CompressorReader::read`, reaching upstream EOF with the stored
operation still Process (and nothing produced, non-empty buffer) switches the
stored operation to Finish and loops; the stored operation is never switched
back (every successful return from a read that starts in Finish still carries
Finish); and at EOF with operation already Finish and nothing produced, read
returns 0, signalling EOF. -/
theorem C6_op_switch (E : EncModel σ) :
    (∀ (fuel cap r : Nat) (e e1 : σ), cap ≠ 0 →
        E.compress e [] cap .process = .ok (e1, r, []) →
        CompressorReader.read E (fuel + 1) [] .process e cap =
          CompressorReader.read E fuel [] .finish e1 cap)
    ∧ (∀ (fuel : Nat) (inner : List Nat) (cap : Nat) (e : σ) (w inner1 : List Nat)
        (op1 : BrotliOperation) (e1 : σ),
        CompressorReader.read E fuel inner .finish e cap = .ok w inner1 op1 e1 →
        op1 = .finish)
    ∧ (∀ (fuel cap r : Nat) (e e1 : σ), cap ≠ 0 →
        E.compress e [] cap .finish = .ok (e1, r, []) →
        CompressorReader.read E (fuel + 1) [] .finish e cap = .ok [] [] .finish e1) := by
  refine ⟨?_, ?_, ?_⟩
  · intro fuel cap r e e1 hc h
    simp [CompressorReader.read, h, hc]
  · intro fuel
    induction fuel with
    | zero =>
      intro inner cap e w inner1 op1 e1 h
      simp [CompressorReader.read] at h
    | succ n ih =>
      intro inner cap e w inner1 op1 e1 h
      simp only [CompressorReader.read] at h
      cases hC : E.compress e inner cap .finish with
      | error er => rw [hC] at h; simp at h
      | ok tr =>
        obtain ⟨e2, br, written⟩ := tr
        rw [hC] at h
        simp only at h
        by_cases hw : written.length > 0
        · rw [if_pos hw] at h
          injection h with h1 h2 h3 h4
          exact h3.symm
        · rw [if_neg hw] at h
          by_cases hcap : cap = 0
          · rw [if_pos hcap] at h
            injection h with h1 h2 h3 h4
            exact h3.symm
          · rw [if_neg hcap] at h
            by_cases he : inner.isEmpty = false
            · rw [if_pos he] at h
              exact ih _ _ _ _ _ _ _ h
            · rw [if_neg he] at h
              injection h with h1 h2 h3 h4
              exact h3.symm
  · intro fuel cap r e e1 hc h
    simp [CompressorReader.read, h, hc]

theorem C6_witness :
    CompressorReader.read mencM 1 [] .process MEnc.init 1 =
      CompressorReader.read mencM 0 [] .finish ⟨[], [], false⟩ 1
    ∧ BrotliOperation.finish = BrotliOperation.finish
    ∧ CompressorReader.read mencM 1 [] .finish ⟨[], [], true⟩ 1 =
        CRResult.ok [] [] .finish ⟨[], [], true⟩ := by
  refine ⟨?_, ?_, ?_⟩
  · exact (C6_op_switch mencM).1 0 1 0 MEnc.init ⟨[], [], false⟩ (by decide) rfl
  · exact (C6_op_switch mencM).2.1 1 [] 1 ⟨[], [], true⟩ [] [] .finish ⟨[], [], true⟩
      (by decide)
  · exact (C6_op_switch mencM).2.2 0 1 0 ⟨[], [], true⟩ ⟨[], [], true⟩ (by decide) rfl

/-- C7: when the decoder reports `NeedsMoreOutput` while the caller's buffer
is empty (zero capacity) and no bytes were written, `read` returns 0 — it
neither loops nor panics. -/
theorem C7_empty_buffer (D : DecModel δ) (fuel r : Nat) (d d1 : δ) (inner : List Nat) :
    D.decompress d inner 0 = .ok (d1, r, [], .needsMoreOutput) →
    DecompressorReader.read D (fuel + 1) inner d 0 = .ok [] (inner.drop r) d1 := by
  intro h
  simp [DecompressorReader.read, h]

theorem C7_witness :
    DecompressorReader.read mdecM 1 [] ⟨.done, 0, [5]⟩ 0 =
      DRResult.ok [] [] ⟨.done, 0, [5]⟩ := by
  have h := C7_empty_buffer mdecM 0 0 ⟨.done, 0, [5]⟩ ⟨.done, 0, [5]⟩ [] rfl
  simpa using h

/-- C10: when the decoder reports `NeedsMoreOutput` while the caller's buffer
is non-empty and no bytes were written in the call, `read` panics; this is the
only handling of that status combination, and it is reachable at the public
`read` interface with an interface-conforming engine (the witness). -/
theorem C10_needs_output_panics (D : DecModel δ) (fuel cap r : Nat) (d d1 : δ)
    (inner : List Nat) :
    cap ≠ 0 →
    D.decompress d inner cap = .ok (d1, r, [], .needsMoreOutput) →
    DecompressorReader.read D (fuel + 1) inner d cap = .panicked := by
  intro hc h
  simp [DecompressorReader.read, h, hc]

theorem C10_witness :
    DecompressorReader.read sdec 1 [] [(0, [], DecoderInfo.needsMoreOutput)] 1 =
      DRResult.panicked :=
  C10_needs_output_panics sdec 0 1 0 [(0, [], DecoderInfo.needsMoreOutput)] [] []
    (by decide) rfl

theorem except_ok_bind (a : α) (f : α → Except ε β) : Except.ok a >>= f = f a :=
  rfl

theorem except_error_bind (e : ε) (f : α → Except ε β) :
    (Except.error e : Except ε α) >>= f = Except.error e :=
  rfl

theorem except_throw (e : ε) : (throw e : Except ε α) = Except.error e :=
  rfl

theorem except_pure (a : α) : (pure a : Except ε α) = Except.ok a :=
  rfl

theorem configure_pd (p d : Nat) (hp3 : ¬ p > 3) :
    BrotliEncoderOptions.configure { postfixBits := some p, directDistanceCodes := some d } =
      if d > 15 <<< p ∨ (d &&& ((1 <<< p) - 1)) ≠ 0 then
        Except.error SetParameterError.invalidDirectDistanceCodes
      else Except.ok () := by
  by_cases hb : d > 15 <<< p ∨ (d &&& ((1 <<< p) - 1)) ≠ 0
  · rw [if_pos hb]
    have hbb : (decide (d > 15 <<< p) || decide ((d &&& ((1 <<< p) - 1)) ≠ 0)) = true := by
      simp only [Bool.or_eq_true, decide_eq_true_eq]
      exact hb
    simp only [BrotliEncoderOptions.configure, setParam, except_ok_bind, except_pure,
      Option.getD_some]
    rw [if_neg hp3]
    simp only [except_ok_bind, hbb, if_true, except_throw, except_error_bind]
  · rw [if_neg hb]
    have hbb : (decide (d > 15 <<< p) || decide ((d &&& ((1 <<< p) - 1)) ≠ 0)) = false := by
      simp only [Bool.or_eq_false_iff, decide_eq_false_iff_not]
      push_neg at hb
      exact ⟨by omega, fun hh => hh hb.2⟩
    simp only [BrotliEncoderOptions.configure, setParam, except_ok_bind, except_pure,
      Option.getD_some]
    rw [if_neg hp3]
    simp only [except_ok_bind, hbb, Bool.false_eq_true, if_false, except_throw,
      except_error_bind]

/-- C8: the validators accept exactly the documented closed boundaries —
quality 0 and 11 accepted, 12 rejected; window-size bits 10 and 24 accepted,
9 and 25 rejected; large-window bits 30 accepted, 31 rejected; postfix bits 3
accepted, 4 rejected; and direct distance codes accepted precisely when they
are a multiple of `1 <<< postfix_bits` and at most `15 <<< postfix_bits` —
each rejection producing the corresponding `SetParameterError` (before any
engine byte is processed, the checks being pure). -/
theorem C8_parameter_boundaries :
    Quality.new 0 = .ok ⟨0⟩
    ∧ Quality.new 11 = .ok ⟨11⟩
    ∧ Quality.new 12 = .error .invalidQuality
    ∧ WindowSize.new 10 = .ok ⟨10⟩
    ∧ WindowSize.new 24 = .ok ⟨24⟩
    ∧ WindowSize.new 9 = .error .invalidWindowSize
    ∧ WindowSize.new 25 = .error .invalidWindowSize
    ∧ LargeWindowSize.new 30 = .ok ⟨30⟩
    ∧ LargeWindowSize.new 31 = .error .invalidWindowSize
    ∧ BrotliEncoderOptions.configure { postfixBits := some 3 } = .ok ()
    ∧ BrotliEncoderOptions.configure { postfixBits := some 4 } = .error .invalidPostfix
    ∧ (∀ p d : Nat, p ≤ 3 →
        (BrotliEncoderOptions.configure
            { postfixBits := some p, directDistanceCodes := some d } = .ok ()
          ↔ (d % 2 ^ p = 0 ∧ d ≤ 15 * 2 ^ p))) := by
  refine ⟨rfl, rfl, rfl, rfl, rfl, rfl, rfl, rfl, rfl, rfl, rfl, ?_⟩
  intro p d hp
  have hp3 : ¬ (p > 3) := by omega
  rw [configure_pd p d hp3]
  have hmask : d &&& ((1 <<< p) - 1) = d % 2 ^ p := by
    rw [Nat.shiftLeft_eq, one_mul]
    exact Nat.and_pow_two_sub_one_eq_mod d p
  have hshift : 15 <<< p = 15 * 2 ^ p := Nat.shiftLeft_eq 15 p
  rw [hmask, hshift]
  by_cases hb : d > 15 * 2 ^ p ∨ d % 2 ^ p ≠ 0
  · rw [if_pos hb]
    constructor
    · intro h
      exact Except.noConfusion h
    · intro h
      rcases hb with hb | hb
      · omega
      · exact absurd h.1 hb
  · rw [if_neg hb]
    push_neg at hb
    exact iff_of_true rfl ⟨hb.2, by omega⟩

theorem C8_witness :
    BrotliEncoderOptions.configure
        { postfixBits := some 3, directDistanceCodes := some 120 } = .ok ()
    ∧ (120 % 2 ^ 3 = 0 ∧ 120 ≤ 15 * 2 ^ 3) := by
  have h := C8_parameter_boundaries.2.2.2.2.2.2.2.2.2.2.2 3 120 (by decide)
  exact ⟨h.mpr (by decide), by decide⟩
